import Mathlib

/-!
Verification of `optimizer_comparison/std_qaoa/qaoa_from_bitflip.py`.

The Python module builds a QAOA cost circuit from a compiled Boolean
formula (a "bitflip oracle"), derives an objective function that scores
measured bitstrings with the formula's own simulator, and drives an
external optimizer while tracking the best objective value seen.

The embedding below translates the module's functions into Lean:
  * quantum circuits become explicit instruction lists (`Circuit`),
    with the externally synthesized oracle kept as an opaque type `B`;
  * gate angles become symbolic values (`Angle`): a rational multiple
    of pi, or a rational multiple of a named free parameter;
  * Python floats are modelled as exact rationals (`Rat`);
  * Python runtime errors (`ZeroDivisionError` from `float(0)/float(0)`,
    `IndexError` from `output[0]` on an empty list) become an explicit
    `Except PyError` result;
  * the mutable driver object `QAOAbf` becomes a state record threaded
    explicitly through `execute` / `run`-reset steps.
-/

/-- A gate angle: either `c * pi` for a rational `c`, or `c * theta` for a
named free circuit parameter `theta` (qiskit `Parameter`). -/
inductive Angle
  | piMul (c : ℚ)
  | paramMul (c : ℚ) (pname : String)
deriving DecidableEq, Repr

/-- One circuit instruction, as recorded by the qiskit `QuantumCircuit`
builder calls used in the module.  `B` is the opaque type of externally
synthesized oracle sub-circuits; `append b qargs` records appending the
sub-circuit `b` across the qubits `qargs`. -/
inductive Instr (B : Type)
  | x (q : Nat)
  | p (a : Angle) (q : Nat)
  | rx (a : Angle) (q : Nat)
  | append (b : B) (qargs : List Nat)
deriving DecidableEq, Repr

/-- A quantum circuit: a qubit count and the ordered list of recorded
instructions. -/
structure Circuit (B : Type) where
  num_qubits : Nat
  ops : List (Instr B)
deriving DecidableEq, Repr

/-- `circ.x(q)` builder call. -/
def Circuit.x {B : Type} (c : Circuit B) (q : Nat) : Circuit B :=
  { c with ops := c.ops ++ [Instr.x q] }

/-- `circ.p(angle, q)` builder call. -/
def Circuit.p {B : Type} (c : Circuit B) (a : Angle) (q : Nat) : Circuit B :=
  { c with ops := c.ops ++ [Instr.p a q] }

/-- `circ.rx(angle, q)` builder call. -/
def Circuit.rx {B : Type} (c : Circuit B) (a : Angle) (q : Nat) : Circuit B :=
  { c with ops := c.ops ++ [Instr.rx a q] }

/-- `circ.append(sub, qargs)` builder call. -/
def Circuit.append {B : Type} (c : Circuit B) (b : B) (qargs : List Nat) : Circuit B :=
  { c with ops := c.ops ++ [Instr.append b qargs] }

/-- A compiled Boolean formula, as the module uses it: its list of input
variables (`formula.args`), the externally synthesized bitflip oracle
circuit (`formula.synth()`, kept opaque of type `B`), and its classical
simulator (`formula.simulate`, lsb-first input, single-element output). -/
structure Formula (B : Type) where
  args : List String
  synth : B
  simulate : List Bool → List Bool

/-- `get_cost_circuit(input_formula)`: builds the phase-separation circuit
from the bitflip oracle.  `nq b` is the qubit count of the opaque oracle
circuit `b` (its `num_qubits` attribute). -/
def get_cost_circuit {B : Type} (nq : B → Nat) (input_formula : Formula B) : Circuit B :=
  let bcirc := input_formula.synth
  let cost_circ : Circuit B := { num_qubits := nq bcirc, ops := [] }
  let cost_circ := cost_circ.x (nq bcirc - 1)
  let cost_circ := cost_circ.append bcirc (List.range cost_circ.num_qubits)
  let cost_circ := cost_circ.p (Angle.piMul (-1)) (cost_circ.num_qubits - 1)
  let cost_circ := cost_circ.append bcirc (List.range (nq bcirc))
  let cost_circ := cost_circ.x (cost_circ.num_qubits - 1)
  cost_circ

/-- `standard_mixer(n)`: the transverse-field mixer, one `rx(2*beta, i)`
gate per qubit with a single shared parameter `beta`. -/
def standard_mixer {B : Type} (n : Nat) : Circuit B :=
  let beta := "$\\beta$"
  let circ : Circuit B := { num_qubits := n, ops := [] }
  (List.range n).foldl (fun c i => c.rx (Angle.paramMul 2 beta) i) circ

/-- Python runtime errors the embedded code can raise. -/
inductive PyError
  | zeroDivisionError
  | indexError
deriving DecidableEq, Repr

/-- Equality of embedded Python results is decidable, so theorems can be
checked on concrete inputs by evaluation. -/
instance {ε α : Type} [DecidableEq ε] [DecidableEq α] : DecidableEq (Except ε α) :=
  fun a b =>
    match a, b with
    | Except.error e1, Except.error e2 =>
      if h : e1 = e2 then Decidable.isTrue (by rw [h]) else Decidable.isFalse (by simp [h])
    | Except.error _, Except.ok _ => Decidable.isFalse (by simp)
    | Except.ok _, Except.error _ => Decidable.isFalse (by simp)
    | Except.ok v1, Except.ok v2 =>
      if h : v1 = v2 then Decidable.isTrue (by rw [h]) else Decidable.isFalse (by simp [h])

/-- The closure `cf` returned by `get_objective_fn`: slices the last
`num_input_qubits` characters of the measured bitstring (Python slice
`bitvec[-num_input_qubits:]`, which yields the whole string when the
count is `0` or exceeds the string length), reverses them, maps `'1'` to
`true`, runs the formula simulator, and scores `output[0]` (0 when true,
1 when false; `IndexError` when the simulator returns an empty list). -/
def cf (simulate : List Bool → List Bool) (num_input_qubits : Nat) (bitvec : String) :
    Except PyError Nat :=
  let inputs_str : List Char :=
    if num_input_qubits = 0 then bitvec.data
    else bitvec.data.drop (bitvec.data.length - num_input_qubits)
  let inputs := inputs_str.reverse.map (fun c => c == '1')
  let output := simulate inputs
  match output.head? with
  | some o => Except.ok (if o then 0 else 1)
  | none => Except.error PyError.indexError

/-- `get_objective_fn(input_formula)`: returns the scoring closure with
`num_input_qubits = len(input_formula.args)`. -/
def get_objective_fn {B : Type} (input_formula : Formula B) : String → Except PyError Nat :=
  cf input_formula.simulate input_formula.args.length

/-- Measurement counts: the `dict` of bitstring → occurrence count,
embedded as an association list in iteration order. -/
def Counts : Type := List (String × ℤ)

/-- The driver object `QAOAbf`: `cost_op`, `obj_value_fn` and
`init_circuit` are set by `__init__`; `best_fval` / `best_params` are the
best-result state written by `run` and the executor closure.  `C` is the
opaque type of the cost operator, `I` of the initial-state circuit, `P`
of optimizer parameter vectors. -/
structure QAOAbf (C I P : Type) where
  cost_op : C
  obj_value_fn : String → ℚ
  init_circuit : Option I
  best_fval : ℚ
  best_params : Option P

/-- `QAOAbf.obj_fn(counts)`: loops over `counts.items()`, accumulating
`sum_obj += obj_value_fn(bitvec) * count` and `num_entries += count`,
then returns `float(sum_obj)/float(num_entries)` — a `ZeroDivisionError`
when the accumulated total is zero. -/
def obj_fn (obj_value_fn : String → ℚ) (counts : List (String × ℤ)) : Except PyError ℚ :=
  let acc := counts.foldl
    (fun (a : ℚ × ℤ) bc => (a.1 + obj_value_fn bc.1 * (bc.2 : ℚ), a.2 + bc.2))
    ((0 : ℚ), (0 : ℤ))
  if acc.2 = 0 then Except.error PyError.zeroDivisionError
  else Except.ok (acc.1 / ((acc.2 : ℤ) : ℚ))

/-- The best-result update inside the executor closure:
`if obj_val < self.best_fval: self.best_fval = obj_val; self.best_params
= paramlist`. -/
def bestUpdate {C I P : Type} (s : QAOAbf C I P) (paramlist : P) (obj_val : ℚ) :
    QAOAbf C I P :=
  if obj_val < s.best_fval then
    { s with best_fval := obj_val, best_params := some paramlist }
  else s

/-- One call of the `execute` closure returned by `get_executor`: the
backend run at `paramlist` produced the counts `cts`; the closure scores
them with `obj_fn`, updates the best-result state on strict improvement,
and returns the objective value.  A `ZeroDivisionError` from `obj_fn`
propagates before any state change. -/
def execute {C I P : Type} (s : QAOAbf C I P) (paramlist : P) (cts : List (String × ℤ)) :
    Except PyError (QAOAbf C I P × ℚ) :=
  match obj_fn s.obj_value_fn cts with
  | Except.error e => Except.error e
  | Except.ok obj_val => Except.ok (bestUpdate s paramlist obj_val, obj_val)

/-- The best-state reset at the top of `run`:
`self.best_fval = 1000; self.best_params = None`. -/
def runReset {C I P : Type} (s : QAOAbf C I P) : QAOAbf C I P :=
  { s with best_fval := 1000, best_params := none }

/-- A sequence of executor calls, each given as the pair (parameter
vector, objective value the call computed), folded through the
best-result update. -/
def runCalls {C I P : Type} (s : QAOAbf C I P) (calls : List (P × ℚ)) : QAOAbf C I P :=
  calls.foldl (fun st pc => bestUpdate st pc.1 pc.2) s

/-- The default initial parameters in `run` when `initial_parameters ==
None`: `[np.random.random_sample()*np.pi for i in range(0, 2*p)]`.  The
random draws are modelled by the oracle `sample : Nat → ℚ` giving the
`i`-th draw (a double in `[0,1)`). -/
noncomputable def initParams (p : Nat) (sample : Nat → ℚ) : List ℝ :=
  (List.range (2 * p)).map (fun i => ((sample i : ℚ) : ℝ) * Real.pi)

/-- The `x0` value `run` passes to `optimizer.minimize`: the given
`initial_parameters` when not `None`, else the random default. -/
noncomputable def runX0 (p : Nat) (initial_parameters : Option (List ℝ))
    (sample : Nat → ℚ) : List ℝ :=
  match initial_parameters with
  | some l => l
  | none => initParams p sample

/-- A concrete driver state used to instantiate theorems. -/
def qaoaW : QAOAbf Unit Unit Nat :=
  { cost_op := (), obj_value_fn := fun _ => 0, init_circuit := none,
    best_fval := 1000, best_params := none }

/-- A concrete driver state whose objective function returns 1500 on
every bitstring. -/
def qaoaCex : QAOAbf Unit Unit Nat :=
  { cost_op := (), obj_value_fn := fun _ => 1500, init_circuit := none,
    best_fval := 0, best_params := none }

/-- The 1-variable formula `x1` from the spec's hand-built example: one
input variable, simulator returning the first input bit. -/
def fW : Formula Unit :=
  { args := ["x1"], synth := (), simulate := fun l => [l.headD false] }

/-- The objective function of the spec's weighted-mean example: 1 on
"00", 0 elsewhere. -/
def objW : String → ℚ := fun s => if s = "00" then 1 else 0

/-- Claim C1: `get_cost_circuit(formula)` returns a circuit on exactly
the oracle's `n` qubits whose instruction sequence is: X on qubit `n-1`,
the oracle `B` appended unmodified across all `n` qubits, a phase gate of
angle `-pi` on qubit `n-1`, `B` appended again across all `n` qubits, and
a final X on qubit `n-1`. -/
theorem C1_cost_circuit {B : Type} (nq : B → Nat) (f : Formula B) (n : Nat)
    (h : nq f.synth = n) (hn : 1 ≤ n) :
    (get_cost_circuit nq f).num_qubits = n ∧
    (get_cost_circuit nq f).ops =
      [Instr.x (n - 1), Instr.append f.synth (List.range n),
       Instr.p (Angle.piMul (-1)) (n - 1), Instr.append f.synth (List.range n),
       Instr.x (n - 1)] := by
  subst h
  exact ⟨rfl, rfl⟩

/-- Witness for C1 at a concrete 3-qubit oracle. -/
theorem C1_witness :
    ((fun _ : Unit => 3) ((Formula.synth ⟨["x1"], (), fun l => l⟩ : Unit)) = 3 ∧ 1 ≤ 3) ∧
    ((get_cost_circuit (fun _ : Unit => 3) ⟨["x1"], (), fun l => l⟩).num_qubits = 3 ∧
     (get_cost_circuit (fun _ : Unit => 3) ⟨["x1"], (), fun l => l⟩).ops =
       [Instr.x 2, Instr.append () (List.range 3),
        Instr.p (Angle.piMul (-1)) 2, Instr.append () (List.range 3),
        Instr.x 2]) :=
  ⟨⟨rfl, by decide⟩,
   C1_cost_circuit (fun _ : Unit => 3) ⟨["x1"], (), fun l => l⟩ 3 rfl (by decide)⟩

/-- The mixer loop: folding `rx` gates over `range n` appends exactly one
`rx a i` instruction per `i < n` and leaves the qubit count unchanged. -/
theorem mixer_loop_aux {B : Type} (a : Angle) (n : Nat) (init : Circuit B) :
    (List.range n).foldl (fun c i => c.rx a i) init =
      { num_qubits := init.num_qubits,
        ops := init.ops ++ (List.range n).map (fun i => Instr.rx a i) } := by
  induction n with
  | zero => simp
  | succ k ih =>
    rw [List.range_succ, List.foldl_append, ih]
    simp [Circuit.rx]

/-- Claim C9: `standard_mixer(n)` is a circuit on exactly `n` qubits
consisting of exactly one `rx` gate of angle `2*beta` on each qubit
`i = 0..n-1`, all sharing the single free parameter `beta`, and nothing
else; `n = 0` yields an empty circuit. -/
theorem C9_standard_mixer {B : Type} (n : Nat) :
    (standard_mixer (B := B) n).num_qubits = n ∧
    (standard_mixer (B := B) n).ops =
      (List.range n).map (fun i => Instr.rx (Angle.paramMul 2 "$\\beta$") i) ∧
    (n = 0 → standard_mixer (B := B) n = { num_qubits := 0, ops := [] }) := by
  refine ⟨?_, ?_, ?_⟩
  · rw [standard_mixer, mixer_loop_aux]
  · rw [standard_mixer, mixer_loop_aux]
    simp
  · intro h
    subst h
    rfl

/-- Witness for C9 at `n = 0`: the mixer circuit is empty. -/
theorem C9_witness :
    (0 : Nat) = 0 ∧ standard_mixer (B := Unit) 0 = { num_qubits := 0, ops := [] } :=
  ⟨rfl, (C9_standard_mixer (B := Unit) 0).2.2 rfl⟩

/-- Claim C2: for a compiled formula with `k = len(formula.args)` input
variables (at least one) and a measured bitstring of length at least `k`,
the closure returned by `get_objective_fn` returns 0 exactly when
`formula.simulate` applied to the reversal of the bitstring's last `k`
characters (each mapped to true iff it is '1') yields a true first
output, and 1 otherwise; characters before the last `k` never affect the
result. -/
theorem C2_objective {B : Type} (f : Formula B) (bitvec : String) (b : Bool)
    (rest : List Bool) (hk : 1 ≤ f.args.length) (_hlen : f.args.length ≤ bitvec.length)
    (hsim : f.simulate
        (((bitvec.data.drop (bitvec.data.length - f.args.length)).reverse).map
          (fun c => c == '1')) = b :: rest) :
    get_objective_fn f bitvec = Except.ok (if b then 0 else 1) ∧
    (∀ pre s : String, f.args.length ≤ s.length →
      get_objective_fn f (pre ++ s) = get_objective_fn f s) := by
  have h0 : f.args.length ≠ 0 := by omega
  constructor
  · unfold get_objective_fn cf
    simp only [if_neg h0, hsim, List.head?]
  · intro pre s hs
    unfold get_objective_fn cf
    simp only [if_neg h0]
    have hdata : (pre ++ s).data = pre.data ++ s.data := String.data_append pre s
    have hslice :
        (pre.data ++ s.data).drop ((pre.data ++ s.data).length - f.args.length) =
          s.data.drop (s.data.length - f.args.length) := by
      have hs' : f.args.length ≤ s.data.length := hs
      have harith : (pre.data ++ s.data).length - f.args.length =
          pre.data.length + (s.data.length - f.args.length) := by
        simp only [List.length_append]
        omega
      rw [harith, List.drop_append]
    rw [hdata, hslice]

/-- Witness for C2 on the spec's 1-variable formula `x1`: a bitstring
ending in "1" scores 0, one ending in "0" scores 1, and a prepended
ancilla character does not change the score. -/
theorem C2_witness :
    get_objective_fn fW "01" = Except.ok (if true then 0 else 1) ∧
    get_objective_fn fW "10" = Except.ok (if false then 0 else 1) ∧
    get_objective_fn fW ("1" ++ "01") = get_objective_fn fW "01" :=
  ⟨(C2_objective fW "01" true [] (by decide) (by decide) (by decide)).1,
   (C2_objective fW "10" false [] (by decide) (by decide) (by decide)).1,
   (C2_objective fW "01" true [] (by decide) (by decide) (by decide)).2 "1" "01"
     (by decide)⟩

/-- Claim C6 (code evaluation): on a bitstring shorter than the formula's
input width — here the empty bitstring against `k = 1` — the closure does
not fail fast: the Python slice `bitvec[-1:]` of `""` is `""`, and the
closure silently hands the too-short (empty) input vector to the
formula's simulator, returning that score as usual. -/
theorem C6_short_bitstring (simulate : List Bool → List Bool)
    (h : simulate [] = [true]) :
    cf simulate 1 "" = Except.ok 0 := by
  unfold cf
  simp [h]

/-- Witness for C6: a concrete simulator accepting the empty input. -/
theorem C6_witness :
    (fun _ : List Bool => [true]) [] = [true] ∧
    cf (fun _ : List Bool => [true]) 1 "" = Except.ok 0 :=
  ⟨rfl, C6_short_bitstring (fun _ : List Bool => [true]) rfl⟩

/-- The accumulator loop of `obj_fn` computes the pair of sums
`(sum of obj * count, sum of count)`. -/
theorem obj_fn_foldl (f : String → ℚ) (counts : List (String × ℤ)) (a : ℚ) (b : ℤ) :
    counts.foldl (fun (acc : ℚ × ℤ) bc => (acc.1 + f bc.1 * (bc.2 : ℚ), acc.2 + bc.2))
        (a, b) =
      (a + (counts.map (fun bc => f bc.1 * (bc.2 : ℚ))).sum,
       b + (counts.map (fun bc => bc.2)).sum) := by
  induction counts generalizing a b with
  | nil => simp
  | cons hd tl ih => simp [ih, add_assoc]

/-- `obj_fn` on counts with a nonzero total returns the weighted mean. -/
theorem obj_fn_eq (f : String → ℚ) (counts : List (String × ℤ))
    (hT : (counts.map (fun bc => bc.2)).sum ≠ 0) :
    obj_fn f counts =
      Except.ok ((counts.map (fun bc => f bc.1 * (bc.2 : ℚ))).sum /
        (((counts.map (fun bc => bc.2)).sum : ℤ) : ℚ)) := by
  unfold obj_fn
  rw [obj_fn_foldl]
  simp [hT]

/-- Any value `obj_fn` returns for a `{0,1}`-valued objective over
non-negative counts lies in `[0, 1]`. -/
theorem obj_fn_bounds (f : String → ℚ) (counts : List (String × ℤ)) (v : ℚ)
    (hf : ∀ s, f s = 0 ∨ f s = 1) (hc : ∀ q ∈ counts, 0 ≤ q.2)
    (hv : obj_fn f counts = Except.ok v) : 0 ≤ v ∧ v ≤ 1 := by
  by_cases hT : (counts.map (fun bc => bc.2)).sum = 0
  · exfalso
    unfold obj_fn at hv
    rw [obj_fn_foldl] at hv
    simp [hT] at hv
  · rw [obj_fn_eq f counts hT] at hv
    have hv' : v = (counts.map (fun bc => f bc.1 * (bc.2 : ℚ))).sum /
        (((counts.map (fun bc => bc.2)).sum : ℤ) : ℚ) := by
      exact (Except.ok.injEq _ _).mp hv.symm
    have hTz : 0 < (counts.map (fun bc => bc.2)).sum := by
      rcases lt_or_eq_of_le (List.sum_nonneg (fun x hx => by
        obtain ⟨q, hq, rfl⟩ := List.mem_map.mp hx
        exact hc q hq)) with h | h
      · exact h
      · exact absurd h.symm hT
    have hTQ : (0 : ℚ) < (((counts.map (fun bc => bc.2)).sum : ℤ) : ℚ) := by
      exact_mod_cast hTz
    have hS0 : (0 : ℚ) ≤ (counts.map (fun bc => f bc.1 * (bc.2 : ℚ))).sum := by
      refine List.sum_nonneg ?_
      intro x hx
      obtain ⟨q, hq, rfl⟩ := List.mem_map.mp hx
      rcases hf q.1 with h | h <;> rw [h]
      · simp
      · have : (0 : ℚ) ≤ (q.2 : ℚ) := by exact_mod_cast hc q hq
        simpa using this
    have hST : (counts.map (fun bc => f bc.1 * (bc.2 : ℚ))).sum ≤
        (((counts.map (fun bc => bc.2)).sum : ℤ) : ℚ) := by
      rw [Int.cast_list_sum, List.map_map]
      refine List.sum_le_sum ?_
      intro q hq
      have hq0 : (0 : ℚ) ≤ (q.2 : ℚ) := by exact_mod_cast hc q hq
      rcases hf q.1 with h | h <;> rw [h] <;> simp [hq0]
    constructor
    · rw [hv']
      exact div_nonneg hS0 hTQ.le
    · rw [hv']
      rw [div_le_one hTQ]
      exact hST

/-- Claim C3 (amended): for every counts mapping with nonzero total
count, `obj_fn` returns exactly the weighted mean
`sum(objective(bitstring) * count) / sum(count)`; when the objective is
`{0,1}`-valued and all counts are non-negative the result lies in
`[0, 1]`; and the spec's example `{"00": 5, "11": 5}` with objective 1 on
"00" and 0 on "11" scores exactly `1/2`. -/
theorem C3_score_counts (f : String → ℚ) (counts : List (String × ℤ))
    (hT : (counts.map (fun bc => bc.2)).sum ≠ 0) :
    obj_fn f counts =
      Except.ok ((counts.map (fun bc => f bc.1 * (bc.2 : ℚ))).sum /
        (((counts.map (fun bc => bc.2)).sum : ℤ) : ℚ)) ∧
    ((∀ s, f s = 0 ∨ f s = 1) → (∀ q ∈ counts, 0 ≤ q.2) →
      ∀ v, obj_fn f counts = Except.ok v → 0 ≤ v ∧ v ≤ 1) ∧
    obj_fn objW [("00", 5), ("11", 5)] = Except.ok (1 / 2) := by
  refine ⟨obj_fn_eq f counts hT, ?_, ?_⟩
  swap
  · have h1 : ¬ (("11" : String) = "00") := by decide
    simp only [obj_fn, objW, List.foldl_cons, List.foldl_nil, if_neg h1]
    norm_num
  intro hf hc v hv
  exact obj_fn_bounds f counts v hf hc hv

/-- Witness for C3 on the spec's weighted-mean example. -/
theorem C3_witness :
    ((([("00", (5 : ℤ)), ("11", 5)] : List (String × ℤ)).map (fun bc => bc.2)).sum ≠ 0) ∧
    obj_fn objW [("00", 5), ("11", 5)] =
      Except.ok ((([("00", (5 : ℤ)), ("11", 5)] : List (String × ℤ)).map
          (fun bc => objW bc.1 * (bc.2 : ℚ))).sum /
        ((((([("00", (5 : ℤ)), ("11", 5)] : List (String × ℤ)).map
          (fun bc => bc.2)).sum : ℤ)) : ℚ)) ∧
    obj_fn objW [("00", 5), ("11", 5)] = Except.ok (1 / 2) :=
  ⟨by decide,
   (C3_score_counts objW [("00", 5), ("11", 5)] (by decide)).1,
   (C3_score_counts objW [("00", 5), ("11", 5)] (by decide)).2.2⟩

/-- Counterexample to C3 as stated: the non-empty counts mapping
`{"0": 0}` does not yield the weighted mean — the code divides by the
zero total and raises `ZeroDivisionError`. -/
theorem C3_cex :
    ([("0", (0 : ℤ))] : List (String × ℤ)) ≠ [] ∧
    obj_fn (fun _ => 1) [("0", (0 : ℤ))] = Except.error PyError.zeroDivisionError := by
  exact ⟨by decide, rfl⟩

/-- Claim C5 (code evaluation): on an empty counts mapping `obj_fn`
performs `float(0)/float(0)` and raises `ZeroDivisionError`; no
`NoMeasurementsError` is defined or raised anywhere in the code. -/
theorem C5_empty_counts (f : String → ℚ) :
    obj_fn f [] = Except.error PyError.zeroDivisionError := rfl

/-- Claim C7 (amended): `run()` resets the best-result state to the
finite sentinel `best_fval = 1000` — greater than any value a
`{0,1}`-valued objective's weighted mean can reach, but not a true
+infinity — and `best_params = None`. -/
theorem C7_reset {C I P : Type} (s : QAOAbf C I P) (f : String → ℚ)
    (cts : List (String × ℤ)) (v : ℚ) (hf : ∀ b, f b = 0 ∨ f b = 1)
    (hc : ∀ q ∈ cts, 0 ≤ q.2) (hv : obj_fn f cts = Except.ok v) :
    (runReset s).best_fval = 1000 ∧ (runReset s).best_params = none ∧
    v < (runReset s).best_fval := by
  refine ⟨rfl, rfl, ?_⟩
  have h := obj_fn_bounds f cts v hf hc hv
  have hb : (runReset s).best_fval = 1000 := rfl
  rw [hb]
  linarith [h.2]

/-- Witness for C7 at a concrete driver state and objective value. -/
theorem C7_witness :
    obj_fn (fun _ : String => 0) [("0", 1)] = Except.ok 0 ∧
    ((runReset qaoaW).best_fval = 1000 ∧ (runReset qaoaW).best_params = none ∧
     (0 : ℚ) < (runReset qaoaW).best_fval) :=
  ⟨by simp only [obj_fn, List.foldl_cons, List.foldl_nil]; norm_num,
   C7_reset qaoaW (fun _ => 0) [("0", 1)] 0 (fun _ => Or.inl rfl) (by decide)
     (by simp only [obj_fn, List.foldl_cons, List.foldl_nil]; norm_num)⟩

/-- Counterexample to C7 as stated: the reset sentinel is the finite
value 1000, and an executor objective value of 1500 is producible by
`obj_fn`, so the sentinel is not greater than every possible objective
value. -/
theorem C7_cex :
    (runReset qaoaW).best_fval = 1000 ∧
    obj_fn (fun _ : String => 1500) [("0", 1)] = Except.ok 1500 ∧
    ¬ ((1500 : ℚ) < (runReset qaoaW).best_fval) :=
  ⟨rfl, by simp only [obj_fn, List.foldl_cons, List.foldl_nil]; norm_num, by decide⟩

/-- If no call's objective value is strictly below the current best, the
whole call sequence leaves the driver state untouched. -/
theorem runCalls_noimprove {C I P : Type} (s : QAOAbf C I P) (calls : List (P × ℚ))
    (h : ∀ q ∈ calls, s.best_fval ≤ q.2) : runCalls s calls = s := by
  induction calls with
  | nil => rfl
  | cons hd tl ih =>
    have h1 : s.best_fval ≤ hd.2 := h hd (List.mem_cons_self hd tl)
    have hstep : bestUpdate s hd.1 hd.2 = s := by
      rw [bestUpdate, if_neg (not_lt.mpr h1)]
    unfold runCalls at ih ⊢
    rw [List.foldl_cons, hstep]
    exact ih (fun q hq => h q (List.mem_cons_of_mem hd hq))

/-- Folding the best-result update over a call sequence whose minimum
value `m` is strictly below the starting best records `m` together with
the parameters of the earliest call attaining it. -/
theorem runCalls_min {C I P : Type} (calls : List (P × ℚ)) :
    ∀ (s : QAOAbf C I P) (m : ℚ),
      m ∈ calls.map (fun q => q.2) →
      (∀ v ∈ calls.map (fun q => q.2), m ≤ v) →
      m < s.best_fval →
      (runCalls s calls).best_fval = m ∧
      (runCalls s calls).best_params =
        (calls.find? (fun q => decide (q.2 = m))).map (fun q => q.1) := by
  induction calls with
  | nil =>
    intro s m hmem _ _
    simp at hmem
  | cons hd tl ih =>
    intro s m hmem hmin hm
    by_cases hv : hd.2 = m
    · have hlt : hd.2 < s.best_fval := by rw [hv]; exact hm
      have hstep : bestUpdate s hd.1 hd.2 =
          { s with best_fval := hd.2, best_params := some hd.1 } := by
        rw [bestUpdate, if_pos hlt]
      have hstay :
          runCalls { s with best_fval := hd.2, best_params := some hd.1 } tl =
            { s with best_fval := hd.2, best_params := some hd.1 } := by
        refine runCalls_noimprove _ tl ?_
        intro q hq
        show hd.2 ≤ q.2
        rw [hv]
        exact hmin q.2 (List.mem_cons_of_mem _ (List.mem_map_of_mem _ hq))
      have hrun : runCalls s (hd :: tl) =
          { s with best_fval := hd.2, best_params := some hd.1 } := by
        unfold runCalls
        rw [List.foldl_cons, hstep]
        exact hstay
      rw [hrun, List.find?_cons_of_pos _ (by simp [hv])]
      exact ⟨hv, rfl⟩
    · have hmemtl : m ∈ tl.map (fun q => q.2) := by
        rcases List.mem_cons.mp hmem with h | h
        · exact absurd h.symm hv
        · exact h
      have hmintl : ∀ v ∈ tl.map (fun q => q.2), m ≤ v := by
        intro v hvv
        exact hmin v (List.mem_cons_of_mem _ hvv)
      have hbest : m < (bestUpdate s hd.1 hd.2).best_fval := by
        rw [bestUpdate]
        split
        · exact lt_of_le_of_ne (hmin hd.2 (by simp)) (fun h => hv h.symm)
        · exact hm
      have hrun : runCalls s (hd :: tl) = runCalls (bestUpdate s hd.1 hd.2) tl := by
        unfold runCalls
        rw [List.foldl_cons]
      rw [hrun, List.find?_cons_of_neg _ (by simp [hv])]
      exact ih (bestUpdate s hd.1 hd.2) m hmemtl hmintl hbest

/-- Claim C4 (amended): across any executor-call sequence after `run()`'s
best-state reset whose minimum objective value `m` is strictly below the
reset sentinel 1000 (always the case for this driver's `[0,1]`-valued
objectives), `best_fval` afterwards equals `m` and `best_params` is the
parameter vector of the earliest call producing `m` (strict improvement
decides updates, so ties keep the earliest winner). -/
theorem C4_best_tracking {C I P : Type} (s : QAOAbf C I P) (calls : List (P × ℚ))
    (m : ℚ) (hmem : m ∈ calls.map (fun q => q.2))
    (hmin : ∀ v ∈ calls.map (fun q => q.2), m ≤ v) (hm : m < 1000) :
    (runCalls (runReset s) calls).best_fval = m ∧
    (runCalls (runReset s) calls).best_params =
      (calls.find? (fun q => decide (q.2 = m))).map (fun q => q.1) :=
  runCalls_min calls (runReset s) m hmem hmin hm

/-- Witness for C4: three calls with values 5, 3, 3 — the final best is 3
with the parameters of the earliest call attaining it. -/
theorem C4_witness :
    ((3 : ℚ) ∈ ([((1 : Nat), (5 : ℚ)), (2, 3), (3, 3)].map (fun q => q.2)) ∧
     (3 : ℚ) < 1000) ∧
    ((runCalls (runReset qaoaW) [((1 : Nat), (5 : ℚ)), (2, 3), (3, 3)]).best_fval = 3 ∧
     (runCalls (runReset qaoaW) [((1 : Nat), (5 : ℚ)), (2, 3), (3, 3)]).best_params =
       (([((1 : Nat), (5 : ℚ)), (2, 3), (3, 3)]).find?
           (fun q => decide (q.2 = 3))).map (fun q => q.1)) :=
  ⟨⟨by decide, by decide⟩,
   C4_best_tracking qaoaW [((1 : Nat), (5 : ℚ)), (2, 3), (3, 3)] 3
     (by decide) (by decide) (by decide)⟩

/-- Counterexample to C4 as stated: a single executor call whose
objective value is 1500 (producible, since `obj_value_fn` is arbitrary)
leaves `best_fval` at the reset sentinel 1000, not at the minimum 1500 of
the returned values, and `best_params` unset. -/
theorem C4_cex :
    Except.map (fun r => (r.1.best_fval, r.1.best_params, r.2))
        (execute (runReset qaoaCex) (7 : Nat) [("0", (1 : ℤ))]) =
      Except.ok ((1000 : ℚ), (none : Option Nat), (1500 : ℚ)) ∧
    (1000 : ℚ) ≠ 1500 := by
  have hobj : obj_fn (runReset qaoaCex).obj_value_fn [("0", (1 : ℤ))] =
      Except.ok 1500 := by
    simp only [obj_fn, List.foldl_cons, List.foldl_nil, runReset, qaoaCex]
    norm_num
  have hno : ¬ ((1500 : ℚ) < (runReset qaoaCex).best_fval) := by
    show ¬ ((1500 : ℚ) < 1000)
    norm_num
  have hbu : bestUpdate (runReset qaoaCex) (7 : Nat) 1500 = runReset qaoaCex := by
    unfold bestUpdate
    rw [if_neg hno]
  have hexec : execute (runReset qaoaCex) (7 : Nat) [("0", (1 : ℤ))] =
      Except.ok (bestUpdate (runReset qaoaCex) (7 : Nat) 1500, 1500) := by
    unfold execute
    rw [hobj]
  constructor
  · rw [hexec, hbu]
    rfl
  · norm_num

/-- Claim C10: one executor call with a successfully computed objective
value `v` mutates at most `best_fval` and `best_params`: `cost_op`,
`obj_value_fn` and `init_circuit` are unchanged, and the best-result
fields change (to `v` and the call's parameters) exactly when `v` is a
strict improvement — otherwise the state is exactly as before. -/
theorem C10_frame {C I P : Type} (s : QAOAbf C I P) (pl : P)
    (cts : List (String × ℤ)) (v : ℚ)
    (h : obj_fn s.obj_value_fn cts = Except.ok v) :
    execute s pl cts = Except.ok (bestUpdate s pl v, v) ∧
    (bestUpdate s pl v).cost_op = s.cost_op ∧
    (bestUpdate s pl v).obj_value_fn = s.obj_value_fn ∧
    (bestUpdate s pl v).init_circuit = s.init_circuit ∧
    (v < s.best_fval →
      (bestUpdate s pl v).best_fval = v ∧ (bestUpdate s pl v).best_params = some pl) ∧
    (¬ v < s.best_fval → bestUpdate s pl v = s) := by
  refine ⟨?_, ?_, ?_, ?_, ?_, ?_⟩
  · rw [execute, h]
  · rw [bestUpdate]; split <;> rfl
  · rw [bestUpdate]; split <;> rfl
  · rw [bestUpdate]; split <;> rfl
  · intro hlt
    rw [bestUpdate, if_pos hlt]
    exact ⟨rfl, rfl⟩
  · intro hge
    rw [bestUpdate, if_neg hge]

/-- Witness for C10 at a concrete driver state, parameter and counts. -/
theorem C10_witness :
    obj_fn qaoaW.obj_value_fn [("0", (1 : ℤ))] = Except.ok 0 ∧
    execute qaoaW (1 : Nat) [("0", (1 : ℤ))] =
      Except.ok (bestUpdate qaoaW (1 : Nat) 0, 0) :=
  ⟨by simp only [obj_fn, List.foldl_cons, List.foldl_nil, qaoaW]; norm_num,
   (C10_frame qaoaW 1 [("0", (1 : ℤ))] 0
     (by simp only [obj_fn, List.foldl_cons, List.foldl_nil, qaoaW]; norm_num)).1⟩

/-- Claim C8: when `run(p, ...)` receives `initial_parameters = None`,
the `x0` handed to the optimizer has length exactly `2p` and every entry
is a uniform draw scaled by pi, lying in `[0, pi)`. -/
theorem C8_init_params (p : Nat) (sample : Nat → ℚ)
    (hs : ∀ i, 0 ≤ sample i ∧ sample i < 1) :
    (runX0 p none sample).length = 2 * p ∧
    ∀ x ∈ runX0 p none sample, 0 ≤ x ∧ x < Real.pi := by
  constructor
  · simp [runX0, initParams]
  · intro x hx
    simp only [runX0, initParams, List.mem_map] at hx
    obtain ⟨i, _, rfl⟩ := hx
    constructor
    · exact mul_nonneg (by exact_mod_cast (hs i).1) Real.pi_pos.le
    · calc ((sample i : ℚ) : ℝ) * Real.pi < 1 * Real.pi := by
            refine mul_lt_mul_of_pos_right ?_ Real.pi_pos
            exact_mod_cast (hs i).2
        _ = Real.pi := one_mul _

/-- Witness for C8 with the constant zero sampler at `p = 1`. -/
theorem C8_witness :
    ((0 : ℚ) ≤ 0 ∧ (0 : ℚ) < 1) ∧
    (runX0 1 none (fun _ => (0 : ℚ))).length = 2 * 1 :=
  ⟨⟨le_refl 0, by norm_num⟩,
   (C8_init_params 1 (fun _ => 0) (fun _ => ⟨le_refl 0, by norm_num⟩)).1⟩
